import Mathlib

/-!
Verification of the ETL ingestion core of the Cryptocurrency-ETL-Backend-System
repository against its natural-language specification.

The Python source is shallowly embedded:
* raw source payloads (JSON objects / pandas rows) become the inductive `Val`,
  a dictionary being a `List (String × Val)`;
* Python floats are modelled as rationals (`ℚ`); `float(...)` applied to a
  string is modelled by `parsePyFloat` (decimal literals with optional sign
  and fractional part — the exponent / inf / nan forms of Python's parser are
  outside the inputs exercised here);
* the pydantic model `CryptoData` (src/ingestion/schemas.py) becomes a Lean
  structure, and its field constraints plus validators become `mkCryptoData`,
  which returns `none` exactly when pydantic construction raises
  `ValidationError` (pydantic v2 lax coercion: numeric strings coerce to
  float, non-strings are rejected for str fields);
* the three transformers (src/ingestion/transformers.py) become Lean
  functions.  `transform_coingecko` and `transform_csv` catch every exception
  their bodies can raise, so they are total functions returning the output
  batch together with the error counter; `transform_coinpaprika` has an
  uncaught exception path (an `AttributeError` from calling `.get` on a
  non-dict `quotes` value, which is not in its `except` clause), so it
  returns `Except PyErr (List CryptoData × Nat)`;
* the database session becomes an explicit `DBState`; commits are modelled by
  state updates and rollback by discarding the not-yet-committed part of the
  state; extractor and commit failures are injected through a `Behaviour`
  oracle;
* `ETLPipeline.run` (src/ingestion/etl.py) becomes `runPipelineT`, which also
  returns, as instrumentation, the list of sources whose ingestion method was
  invoked, in invocation order.
-/

/-- A Python/JSON value as it appears in raw payloads.  `vnone` is Python
`None`. -/
inductive Val where
  | vnone : Val
  | vstr : String → Val
  | vnum : ℚ → Val
  | vbool : Bool → Val
  | vobj : List (String × Val) → Val
  | vlist : List Val → Val

/-- A raw item: a Python dict. -/
abbrev Item := List (String × Val)

/-- `d.get(k, default)` on a Python dict. -/
def dictGet (fs : Item) (k : String) (d : Val) : Val :=
  match fs.find? (fun p => p.1 == k) with
  | some p => p.2
  | none => d

/-- Python truthiness of a value. -/
def truthy : Val → Bool
  | .vnone => false
  | .vstr s => !s.toList.isEmpty
  | .vnum q => q != 0
  | .vbool b => b
  | .vobj fs => !fs.isEmpty
  | .vlist xs => !xs.isEmpty

/-- Python `a or b`. -/
def pyOr (a b : Val) : Val := if truthy a then a else b

/-- Python `str(v)`.  Faithful on strings, `None` and booleans; the rendering
of numbers and containers is schematic (all claims are settled on payloads
whose stringified fields are strings). -/
def pyStr : Val → String
  | .vnone => "None"
  | .vstr s => s
  | .vnum q => if q.den == 1 then toString q.num ++ ".0" else toString q.num ++ "/" ++ toString q.den
  | .vbool b => if b then "True" else "False"
  | .vobj _ => "obj"
  | .vlist _ => "list"

/-- Python `s.strip()`: leading and trailing whitespace removed (on the
character list of the string). -/
def stripChars (cs : List Char) : List Char :=
  ((cs.dropWhile Char.isWhitespace).reverse.dropWhile Char.isWhitespace).reverse

/-- Python `s.strip()` as a string-to-string function. -/
def pyStrip (s : String) : String := String.mk (stripChars s.toList)

/-- Python `s.lower()` (ASCII case folding, which covers the payloads
considered here). -/
def pyLower (s : String) : String := String.mk (s.toList.map Char.toLower)

/-- Numeric value of a list of decimal digits. -/
def natOfDigits (cs : List Char) : Nat :=
  cs.foldl (fun a c => a * 10 + (c.toNat - 48)) 0

/-- Whether every character is a decimal digit. -/
def allDigits (cs : List Char) : Bool :=
  cs.all (fun c => c.isDigit)

/-- Unsigned part of Python's `float` string parser: digits with an optional
single decimal point (`"12"`, `"12.5"`, `"12."`, `".5"`). -/
def parseMantissa (cs : List Char) : Option ℚ :=
  match cs.splitOn '.' with
  | [w] =>
    if w.isEmpty || !allDigits w then none
    else some ((natOfDigits w : ℚ))
  | [w, f] =>
    if w.isEmpty && f.isEmpty then none
    else if !allDigits w || !allDigits f then none
    else some ((natOfDigits w : ℚ) + (natOfDigits f : ℚ) / ((10 : ℚ) ^ f.length))
  | _ => none

/-- Python `float(s)` on a string: surrounding whitespace stripped, optional
sign, then a decimal mantissa.  `none` models a raised `ValueError`. -/
def parsePyFloat (s0 : String) : Option ℚ :=
  match stripChars s0.toList with
  | '-' :: rest => (parseMantissa rest).map (fun q => -q)
  | '+' :: rest => parseMantissa rest
  | cs => parseMantissa cs

/-- `s.replace(',', '')`. -/
def stripCommas (s : String) : String :=
  String.mk (s.toList.filter (fun c => c != ','))

/-- The unified record produced by pydantic model `CryptoData`
(src/ingestion/schemas.py).  The `timestamp` metadata field (defaulting to
the extraction instant) is not modelled; no claim concerns it. -/
structure CryptoData where
  crypto_id : String
  crypto_name : String
  price_usd : ℚ
  market_cap_usd : Option ℚ
  volume_24h_usd : Option ℚ
  change_24h_percent : Option ℚ
  source : String
deriving Repr, DecidableEq

/-- pydantic validation of a required `str` field run through the
`validate_not_empty` validator: must be a string, non-empty after `strip()`;
the stripped string is stored. -/
def validStr (v : Val) : Option String :=
  match v with
  | .vstr s => if (stripChars s.toList).isEmpty then none else some (pyStrip s)
  | _ => none

/-- pydantic lax coercion to `float`: numbers pass through, numeric strings
are parsed, everything else (including `None` and booleans) is rejected. -/
def coerceFloat (v : Val) : Option ℚ :=
  match v with
  | .vnum q => some q
  | .vstr s => parsePyFloat s
  | _ => none

/-- Validation of `price_usd`: `Field(gt=0)` together with the
`validate_positive_numbers` validator. -/
def validPrice (v : Val) : Option ℚ :=
  match coerceFloat v with
  | some q => if 0 < q then some q else none
  | none => none

/-- Validation of `market_cap_usd` / `volume_24h_usd`:
`Optional[float] = Field(None, ge=0)` plus the validator. -/
def validOptNonneg (v : Val) : Option (Option ℚ) :=
  match v with
  | .vnone => some none
  | _ =>
    match coerceFloat v with
    | some q => if 0 ≤ q then some (some q) else none
    | none => none

/-- Validation of `change_24h_percent`: `Optional[float]`, unconstrained. -/
def validOptFloat (v : Val) : Option (Option ℚ) :=
  match v with
  | .vnone => some none
  | _ => (coerceFloat v).map some

/-- Construction of `CryptoData(...)`: `none` models a raised
`ValidationError`. -/
def mkCryptoData (id name price mc vol chg : Val) (source : String) :
    Option CryptoData := do
  let i ← validStr id
  let n ← validStr name
  let p ← validPrice price
  let m ← validOptNonneg mc
  let v ← validOptNonneg vol
  let c ← validOptFloat chg
  some ⟨i, n, p, m, v, c, source⟩

/-- A Python exception that escapes a transformer. -/
inductive PyErr where
  | attributeError : PyErr
deriving Repr, DecidableEq

/-- The message recorded when a transformer exception aborts an ingestion. -/
def pyErrMsg : PyErr → String
  | .attributeError => "AttributeError"

/-- Body of the `transform_coinpaprika` loop for one item.  The `except`
clause catches `ValidationError`/`KeyError`/`TypeError` (the `.ok none`
outcome, counted as an error) but not the `AttributeError` raised by
`item.get('quotes', {}).get('USD', {})` when the `quotes` value is not a
dict, or by `quotes.get(...)` when the `USD` value is not a dict. -/
def paprikaItemRecord (item : Item) : Except PyErr (Option CryptoData) :=
  match dictGet item "quotes" (.vobj []) with
  | .vobj qfs =>
    match dictGet qfs "USD" (.vobj []) with
    | .vobj usd =>
      .ok (mkCryptoData (dictGet item "id" (.vstr "")) (dictGet item "name" (.vstr ""))
            (dictGet usd "price" (.vnum 0)) (dictGet usd "market_cap" .vnone)
            (dictGet usd "volume_24h" .vnone) (dictGet usd "percent_change_24h" .vnone)
            "coinpaprika")
    | _ => .error .attributeError
  | _ => .error .attributeError

/-- `DataTransformer.transform_coinpaprika` (src/ingestion/transformers.py):
returns the accumulated records and the error counter, or the uncaught
exception that aborted the batch. -/
def transform_coinpaprika : List Item → Except PyErr (List CryptoData × Nat)
  | [] => .ok ([], 0)
  | it :: rest =>
    match paprikaItemRecord it with
    | .error e => .error e
    | .ok none =>
      match transform_coinpaprika rest with
      | .error e => .error e
      | .ok (cs, es) => .ok (cs, es + 1)
    | .ok (some c) =>
      match transform_coinpaprika rest with
      | .error e => .error e
      | .ok (cs, es) => .ok (c :: cs, es)

/-- Body of the `transform_coingecko` loop for one item. -/
def geckoItemRecord (item : Item) : Option CryptoData :=
  mkCryptoData (dictGet item "id" (.vstr "")) (dictGet item "name" (.vstr ""))
    (dictGet item "current_price" (.vnum 0)) (dictGet item "market_cap" .vnone)
    (dictGet item "total_volume" .vnone)
    (dictGet item "price_change_percentage_24h" .vnone) "coingecko"

/-- `DataTransformer.transform_coingecko`: every exception its body can raise
is caught, so the embedding is a total function returning the records and the
error counter. -/
def transform_coingecko : List Item → List CryptoData × Nat
  | [] => ([], 0)
  | it :: rest =>
    let r := transform_coingecko rest
    match geckoItemRecord it with
    | some c => (c :: r.1, r.2)
    | none => (r.1, r.2 + 1)

/-- `float(str(v).replace(',', ''))` in `transform_csv`: `none` models a
raised (and caught) `ValueError`. -/
def csvNum (v : Val) : Option ℚ :=
  match v with
  | .vnum q => some q
  | .vstr s => parsePyFloat (stripCommas s)
  | _ => none

/-- Body of the `transform_csv` loop for one item; `none` is a caught
exception (`ValidationError` or `ValueError`), counted as an error. -/
def csvItemRecord (item : Item) : Option CryptoData := do
  let priceRaw := pyOr (dictGet item "price_usd" .vnone) (dictGet item "price" (.vstr "0"))
  let mcRaw := pyOr (dictGet item "market_cap_usd" .vnone) (dictGet item "market_cap" .vnone)
  let volRaw := pyOr (dictGet item "volume_24h_usd" .vnone) (dictGet item "volume" .vnone)
  let price ← if truthy priceRaw then csvNum priceRaw else some 0
  let mc ← if truthy mcRaw then (csvNum mcRaw).map some else some none
  let vol ← if truthy volRaw then (csvNum volRaw).map some else some none
  mkCryptoData (.vstr (pyStrip (pyLower (pyStr (dictGet item "id" (.vstr ""))))))
    (.vstr (pyStrip (pyStr (dictGet item "name" (.vstr "")))))
    (.vnum price) (mc.elim Val.vnone Val.vnum) (vol.elim Val.vnone Val.vnum)
    .vnone "csv"

/-- `DataTransformer.transform_csv`: all exceptions caught, total. -/
def transform_csv : List Item → List CryptoData × Nat
  | [] => ([], 0)
  | it :: rest =>
    let r := transform_csv rest
    match csvItemRecord it with
    | some c => (c :: r.1, r.2)
    | none => (r.1, r.2 + 1)

/-- One HTTP response as the upstream server produces it. -/
inductive HttpResponse where
  | tooMany : HttpResponse
  | ok : List Item → HttpResponse
  | errorStatus : Nat → HttpResponse
  | transportError : String → HttpResponse

/-- Observable outcome of one extractor fetch call: the returned data or the
raised exception, the number of HTTP requests issued, and the list of sleep
durations (seconds) performed. -/
structure FetchResult where
  outcome : Except String (List Item)
  requests : Nat
  sleeps : List Nat

/-- `CoinPaprikaClient.get_tickers` (src/ingestion/sources/coinpaprika.py),
driven by the list of responses the server gives to successive requests: a
429 sleeps 60 seconds and recursively re-issues the request; any other
non-2xx or transport error raises.  An exhausted response list is a
transport failure on the request that got no modelled response. -/
def paprikaGetTickers : List HttpResponse → FetchResult
  | [] => ⟨.error "connection error", 1, []⟩
  | r :: rest =>
    match r with
    | .tooMany =>
      let f := paprikaGetTickers rest
      ⟨f.outcome, f.requests + 1, 60 :: f.sleeps⟩
    | .ok d => ⟨.ok d, 1, []⟩
    | .errorStatus c => ⟨.error ("HTTP " ++ toString c), 1, []⟩
    | .transportError m => ⟨.error m, 1, []⟩

/-- `CoinGeckoClient.get_coins_markets` (src/ingestion/sources/coingecko.py):
no special case for 429 — `raise_for_status` raises on every non-2xx. -/
def geckoGetCoinsMarkets : List HttpResponse → FetchResult
  | [] => ⟨.error "connection error", 1, []⟩
  | r :: _ =>
    match r with
    | .tooMany => ⟨.error "HTTP 429", 1, []⟩
    | .ok d => ⟨.ok d, 1, []⟩
    | .errorStatus c => ⟨.error ("HTTP " ++ toString c), 1, []⟩
    | .transportError m => ⟨.error m, 1, []⟩

/-- One row of the `etl_runs` table.  `started_at`/`ended_at` instants are
not modelled; `ended` records whether `ended_at` has been set. -/
structure RunRow where
  rid : Nat
  source : String
  records_processed : Nat
  success : Bool
  error_message : Option String
  ended : Bool
deriving Repr, DecidableEq

/-- The committed database state: raw rows (source tag × payload), cleaned
rows, the `etl_checkpoints` table (source ↦ last_processed_id), and the
`etl_runs` table. -/
structure DBState where
  rawRows : List (String × Item)
  cleanedRows : List CryptoData
  checkpoints : List (String × Int)
  runs : List RunRow

/-- The empty database. -/
def emptyDB : DBState := ⟨[], [], [], []⟩

/-- `ETLPipeline.get_checkpoint` (src/ingestion/etl.py): the stored
`last_processed_id` of the first row for the source, `0` if absent. -/
def get_checkpoint (db : DBState) (source : String) : Int :=
  match db.checkpoints.find? (fun p => p.1 == source) with
  | some p => p.2
  | none => 0

/-- The row-level effect of `ETLPipeline.update_checkpoint`: mutate the first
row with this source in place, or append a fresh row. -/
def upsertCk : List (String × Int) → String → Int → List (String × Int)
  | [], s, c => [(s, c)]
  | p :: rest, s, c =>
    if p.1 == s then (s, c) :: rest else p :: upsertCk rest s c

/-- `ETLPipeline.update_checkpoint` (src/ingestion/etl.py). -/
def update_checkpoint (db : DBState) (source : String) (lastId : Int) : DBState :=
  { db with checkpoints := upsertCk db.checkpoints source lastId }

/-- `ETLPipeline.start_run`: insert a `RunRecord` with `success=False` and
no end data; its id is the fresh row id. -/
def startRun (db : DBState) (label : String) : DBState :=
  { db with runs := db.runs ++ [⟨db.runs.length, label, 0, false, none, false⟩] }

/-- The row-level mutation `ETLPipeline.end_run` performs on the run row it
loaded by id. -/
def endRunUpd (rid : Nat) (total : Nat) (succ : Bool) (msg : Option String)
    (r : RunRow) : RunRow :=
  if r.rid == rid then
    { r with records_processed := total, success := succ,
             error_message := msg, ended := true }
  else r

/-- `ETLPipeline.end_run`: load the run row by id and set `ended_at`,
`records_processed`, `success` and `error_message`. -/
def endRun (db : DBState) (rid : Nat) (total : Nat) (succ : Bool)
    (msg : Option String) : DBState :=
  { db with runs := db.runs.map (endRunUpd rid total succ msg) }

/-- Environment oracle for one pipeline run: what each extractor returns (or
the message of the exception it raises), and whether the commit of a
source's cleaned-data load fails (the message of the raised
persistence error).  Raw-batch and checkpoint commits are modelled as
succeeding; a failure there is caught by the very same `except` clauses, so
this loses no generality for the claims below. -/
structure Behaviour where
  paprika : Except String (List Item)
  gecko : Except String (List Item)
  csv : Except String (List Item)
  paprikaLoadFail : Option String
  geckoLoadFail : Option String
  csvLoadFail : Option String

/-- `ETLPipeline.ingest_from_coinpaprika` (src/ingestion/etl.py): extract,
commit raw rows, transform, commit cleaned rows, update the checkpoint to
the loaded count; on any exception, roll back the uncommitted work and
re-raise.  Returns the raised message or the loaded count, with the
resulting committed state. -/
def ingestPaprika (db : DBState) (b : Behaviour) : Except String Nat × DBState :=
  match b.paprika with
  | .error m => (.error m, db)
  | .ok items =>
    let db1 := { db with rawRows := db.rawRows ++ items.map (fun it => ("coinpaprika", it)) }
    match transform_coinpaprika items with
    | .error e => (.error (pyErrMsg e), db1)
    | .ok (cleaned, _) =>
      match b.paprikaLoadFail with
      | some m => (.error m, db1)
      | none =>
        let db2 := { db1 with cleanedRows := db1.cleanedRows ++ cleaned }
        (.ok cleaned.length, update_checkpoint db2 "coinpaprika" cleaned.length)

/-- `ETLPipeline.ingest_from_coingecko`. -/
def ingestGecko (db : DBState) (b : Behaviour) : Except String Nat × DBState :=
  match b.gecko with
  | .error m => (.error m, db)
  | .ok items =>
    let db1 := { db with rawRows := db.rawRows ++ items.map (fun it => ("coingecko", it)) }
    let cleaned := (transform_coingecko items).1
    match b.geckoLoadFail with
    | some m => (.error m, db1)
    | none =>
      let db2 := { db1 with cleanedRows := db1.cleanedRows ++ cleaned }
      (.ok cleaned.length, update_checkpoint db2 "coingecko" cleaned.length)

/-- `ETLPipeline.ingest_from_csv`. -/
def ingestCsv (db : DBState) (b : Behaviour) : Except String Nat × DBState :=
  match b.csv with
  | .error m => (.error m, db)
  | .ok items =>
    let db1 := { db with rawRows := db.rawRows ++ items.map (fun it => ("csv", it)) }
    let cleaned := (transform_csv items).1
    match b.csvLoadFail with
    | some m => (.error m, db1)
    | none =>
      let db2 := { db1 with cleanedRows := db1.cleanedRows ++ cleaned }
      (.ok cleaned.length, update_checkpoint db2 "csv" cleaned.length)

/-- The cleaned records a source's ingestion commits under behaviour `b`
when it succeeds (empty if its extraction fails or its transform raises). -/
def cleanedOf (b : Behaviour) : String → List CryptoData
  | "coinpaprika" =>
    match b.paprika with
    | .ok items =>
      match transform_coinpaprika items with
      | .ok (cs, _) => cs
      | .error _ => []
    | .error _ => []
  | "coingecko" =>
    match b.gecko with
    | .ok items => (transform_coingecko items).1
    | .error _ => []
  | "csv" =>
    match b.csv with
    | .ok items => (transform_csv items).1
    | .error _ => []
  | _ => []

/-- The error message a source's ingestion raises under behaviour `b`, if it
fails. -/
def failMsgOf (b : Behaviour) : String → Option String
  | "coinpaprika" =>
    match b.paprika with
    | .error m => some m
    | .ok items =>
      match transform_coinpaprika items with
      | .error e => some (pyErrMsg e)
      | .ok _ => b.paprikaLoadFail
  | "coingecko" =>
    match b.gecko with
    | .error m => some m
    | .ok _ => b.geckoLoadFail
  | "csv" =>
    match b.csv with
    | .error m => some m
    | .ok _ => b.csvLoadFail
  | _ => none

/-- Whether a source's ingestion succeeds under behaviour `b`. -/
def sourceOk (b : Behaviour) (s : String) : Bool :=
  (failMsgOf b s).isNone

/-- Intermediate state of the `try` block of `ETLPipeline.run`: the raised
message if a source aborted the run, the running record total, the sources
whose ingestion was invoked (instrumentation, in invocation order), and the
committed database state. -/
structure StepResult where
  err : Option String
  total : Nat
  attempted : List String
  db : DBState

/-- One guarded ingestion inside the `try` block: skipped if a previous
source already raised. -/
def step (s : StepResult) (name : String)
    (f : DBState → Except String Nat × DBState) : StepResult :=
  match s.err with
  | some _ => s
  | none =>
    match f s.db with
    | (.ok n, db') => ⟨none, s.total + n, s.attempted ++ [name], db'⟩
    | (.error m, db') => ⟨some m, s.total, s.attempted ++ [name], db'⟩

/-- The fixed order in which `ETLPipeline.run` tests for the three known
sources (also its default source list). -/
def fixedOrder : List String := ["coinpaprika", "coingecko", "csv"]

/-- The three `if source in sources` branches of `ETLPipeline.run`, in source
order: each known source name with its ingestion method. -/
def sourcePlan (b : Behaviour) : List (String × (DBState → Except String Nat × DBState)) :=
  [("coinpaprika", fun d => ingestPaprika d b),
   ("coingecko", fun d => ingestGecko d b),
   ("csv", fun d => ingestCsv d b)]

/-- The body of the `try` block of `ETLPipeline.run`: one membership-guarded
ingestion per known source, in the fixed order. -/
def runSources (db : DBState) (b : Behaviour) (sources : List String) : StepResult :=
  (sourcePlan b).foldl
    (fun s p => if sources.contains p.1 then step s p.1 p.2 else s)
    ⟨none, 0, [], db⟩

/-- `ETLPipeline.run` (src/ingestion/etl.py), instrumented with the list of
sources whose ingestion was invoked: start a run record, ingest the
requested known sources in fixed order, finalize the run record with the
aggregate total and the outcome, and return the success boolean. -/
def runPipelineT (db0 : DBState) (b : Behaviour) (sources : List String) :
    Bool × List String × DBState :=
  let rid := db0.runs.length
  let db := startRun db0 (String.intercalate "," sources)
  let s := runSources db b sources
  match s.err with
  | none => (true, s.attempted, endRun s.db rid s.total true none)
  | some m => (false, s.attempted, endRun s.db rid s.total false (some m))

/-- `ETLPipeline.run` proper: the returned boolean and the final state. -/
def runPipeline (db0 : DBState) (b : Behaviour) (sources : List String) :
    Bool × DBState :=
  let r := runPipelineT db0 b sources
  (r.1, r.2.2)

/-! ### Concrete items, environments and auxiliary predicates used by the claims -/

/-- A well-formed CoinPaprika raw item used in concrete scenarios. -/
def ckItemA : Item := [("id", .vstr "a"), ("name", .vstr "A"),
  ("quotes", .vobj [("USD", .vobj [("price", .vnum 1)])])]

/-- A second well-formed CoinPaprika raw item. -/
def ckItemB : Item := [("id", .vstr "b"), ("name", .vstr "B"),
  ("quotes", .vobj [("USD", .vobj [("price", .vnum 2)])])]

/-- A run environment whose CoinPaprika extraction yields two items. -/
def behTwo : Behaviour := ⟨.ok [ckItemA, ckItemB], .ok [], .ok [], none, none, none⟩

/-- A run environment whose CoinPaprika extraction yields one item. -/
def behOne : Behaviour := ⟨.ok [ckItemA], .ok [], .ok [], none, none, none⟩

/-- A file row whose optional numeric field is a non-empty unparsable
string. -/
def csvRowUnparsable : Item :=
  [("id", .vstr "bitcoin"), ("name", .vstr "Bitcoin"),
   ("price", .vstr "100"), ("market_cap", .vstr "abc")]

/-- A file row exercising comma-stripping, id normalization and the
preference for the `_usd`-suffixed field over the legacy name. -/
def csvRowPreferred : Item :=
  [("id", .vstr " BitCoin "), ("name", .vstr "Bitcoin"),
   ("price_usd", .vstr "42,000.50"), ("price", .vstr "1"),
   ("market_cap", .vstr "800000000000")]

/-- A file row whose required price is the empty string. -/
def csvRowEmptyPrice : Item :=
  [("id", .vstr "x"), ("name", .vstr "X"), ("price", .vstr "")]

/-- A file row whose optional market-cap field is the empty string. -/
def csvRowEmptyMc : Item :=
  [("id", .vstr "x"), ("name", .vstr "X"), ("price", .vstr "5"),
   ("market_cap_usd", .vstr "")]

/-- The validation invariant of the unified schema, on a produced record.
`mkCryptoData` stores the `strip()`ped id and name, so non-emptiness of the
stored field is exactly non-emptiness after trimming. -/
def validRecord (c : CryptoData) : Prop :=
  0 < c.price_usd ∧ c.crypto_id ≠ "" ∧ c.crypto_name ≠ "" ∧
  (∀ q, c.market_cap_usd = some q → 0 ≤ q) ∧
  (∀ q, c.volume_24h_usd = some q → 0 ≤ q)

/-- Precondition under which a CoinPaprika raw item cannot raise: its
`quotes` value (and the `USD` value inside it), when present, is a dict. -/
def paprikaQuotesOk (item : Item) : Bool :=
  match dictGet item "quotes" (.vobj []) with
  | .vobj qfs =>
    match dictGet qfs "USD" (.vobj []) with
    | .vobj _ => true
    | _ => false
  | _ => false

/-- A CoinPaprika raw item whose `quotes` value is not a dict. -/
def badQuotesItem : Item := [("id", .vstr "btc"), ("quotes", .vnum 1)]

/-- The CoinGecko item used by the C3 witness. -/
def geckoWitnessItem : Item :=
  [("id", .vstr "bitcoin"), ("name", .vstr "Bitcoin"), ("current_price", .vnum 50000)]

/-- The record the CoinGecko transformer produces from `geckoWitnessItem`. -/
def geckoWitnessRecord : CryptoData :=
  ⟨"bitcoin", "Bitcoin", 50000, none, none, none, "coingecko"⟩

/-- The contract each plan entry satisfies: committed cleaned rows grow by
exactly the source's transformer output on success and not at all on
failure, run rows are untouched, and the raised message is the source's
failure message. -/
def planSpec (b : Behaviour) (p : String × (DBState → Except String Nat × DBState)) : Prop :=
  (∀ d n d', p.2 d = (.ok n, d') →
    d'.cleanedRows = d.cleanedRows ++ cleanedOf b p.1 ∧ d'.runs = d.runs ∧
    failMsgOf b p.1 = none) ∧
  (∀ d m d', p.2 d = (.error m, d') →
    d'.cleanedRows = d.cleanedRows ∧ d'.runs = d.runs ∧ failMsgOf b p.1 = some m)

/-- The guarded fold the `try` block performs over a plan. -/
def foldSteps (sources : List String)
    (plan : List (String × (DBState → Except String Nat × DBState)))
    (s : StepResult) : StepResult :=
  plan.foldl (fun s p => if sources.contains p.1 then step s p.1 p.2 else s) s

/-- The environment of the C1 counterexample: CoinPaprika extraction
succeeds with an empty batch, CoinGecko extraction raises "boom". -/
def cexB : Behaviour := ⟨.ok [], .error "boom", .ok [], none, none, none⟩

/-! ### Lemmas and claim theorems -/

/-- After an upsert, the first row for the source holds the written cursor. -/
theorem upsertCk_find (l : List (String × Int)) (s : String) (c : Int) :
    (upsertCk l s c).find? (fun p => p.1 == s) = some (s, c) := by
  induction l with
  | nil => simp [upsertCk]
  | cons p t ih =>
    by_cases hp : p.1 = s
    · simp [upsertCk, hp]
    · simp only [upsertCk]
      rw [if_neg (by simpa using hp)]
      rw [List.find?_cons_of_neg _ (by simpa using hp)]
      exact ih

/-- Reading a checkpoint right after writing it returns the written cursor. -/
theorem get_update_checkpoint (db : DBState) (s : String) (c : Int) :
    get_checkpoint (update_checkpoint db s c) s = c := by
  simp [get_checkpoint, update_checkpoint, upsertCk_find]

/-- If the table holds at most one row for the source, after an upsert it
holds exactly the one fresh row. -/
theorem upsertCk_filter (l : List (String × Int)) (s : String) (c : Int)
    (h : (l.filter (fun p => p.1 == s)).length ≤ 1) :
    (upsertCk l s c).filter (fun p => p.1 == s) = [(s, c)] := by
  induction l with
  | nil => simp [upsertCk]
  | cons p t ih =>
    by_cases hp : p.1 = s
    · have hfil : t.filter (fun p => p.1 == s) = [] := by
        rw [List.filter_cons_of_pos (by simpa using hp), List.length_cons] at h
        exact List.length_eq_zero.mp (by omega)
      simp [upsertCk, hp, hfil]
    · rw [List.filter_cons_of_neg (by simpa using hp)] at h
      simp only [upsertCk]
      rw [if_neg (by simpa using hp)]
      rw [List.filter_cons_of_neg (by simpa using hp)]
      exact ih h

/-- C8: `get_checkpoint` returns the stored `last_processed_id` when a
checkpoint row for the source exists (the source column being unique, at
most one row matches), and `0` when no row for the source exists. -/
theorem claim8_theorem (db : DBState) (s : String) :
    ((∀ v : Int, (s, v) ∉ db.checkpoints) → get_checkpoint db s = 0) ∧
    (∀ v : Int, (s, v) ∈ db.checkpoints →
      (db.checkpoints.filter (fun p => p.1 == s)).length ≤ 1 →
      get_checkpoint db s = v) := by
  constructor
  · intro habs
    unfold get_checkpoint
    have : db.checkpoints.find? (fun p => p.1 == s) = none := by
      rw [List.find?_eq_none]
      intro p hp hps
      have : p = (s, p.2) := by
        have hh : p.1 = s := by simpa using hps
        exact Prod.ext hh rfl
      exact habs p.2 (this ▸ hp)
    rw [this]
  · intro v hv hlen
    unfold get_checkpoint
    have hmemf : (s, v) ∈ db.checkpoints.filter (fun p => p.1 == s) :=
      List.mem_filter.mpr ⟨hv, by simp⟩
    have hone : ∃ a, db.checkpoints.filter (fun p => p.1 == s) = [a] := by
      apply List.length_eq_one.mp
      have : 1 ≤ (db.checkpoints.filter (fun p => p.1 == s)).length :=
        List.length_pos.mpr (List.ne_nil_of_mem hmemf)
      omega
    obtain ⟨a, ha⟩ := hone
    have hav : a = (s, v) := (List.mem_singleton.mp (ha ▸ hmemf)).symm
    cases hfind : db.checkpoints.find? (fun p => p.1 == s) with
    | none =>
      rw [List.find?_eq_none] at hfind
      exact absurd (by simp : ((s, v).1 == s) = true) (hfind _ hv)
    | some p =>
      have hp1 := List.find?_some hfind
      have hpmem : p ∈ db.checkpoints := List.mem_of_find?_eq_some hfind
      have hpf : p ∈ db.checkpoints.filter (fun p => p.1 == s) :=
        List.mem_filter.mpr ⟨hpmem, hp1⟩
      rw [ha] at hpf
      simp at hpf
      rw [hpf, hav]

/-- C8 witness: on the empty store, `get_checkpoint "unknown-source"` is 0. -/
theorem claim8_witness : get_checkpoint emptyDB "unknown-source" = 0 :=
  (claim8_theorem emptyDB "unknown-source").1 (by intro v hv; simp [emptyDB] at hv)

/-- `update_checkpoint` leaves a table that has exactly one row for the
written source whenever the starting table had at most one. -/
theorem update_checkpoint_once (db : DBState) (s : String) (c : Int)
    (h : (db.checkpoints.filter (fun p => p.1 == s)).length ≤ 1) :
    ((update_checkpoint db s c).checkpoints.filter (fun p => p.1 == s)) = [(s, c)] := by
  unfold update_checkpoint
  exact upsertCk_filter _ _ _ h

/-- C4: `update_checkpoint` is an upsert keyed by source: starting from a
store with at most one checkpoint row for `s`, any non-empty sequence of
calls `update_checkpoint s c₁, ..., update_checkpoint s cₙ` (written as the
writes `cs` followed by the last write `c`) leaves exactly one row for `s`,
holding the last written cursor. -/
theorem claim4_theorem (db : DBState) (s : String)
    (h : (db.checkpoints.filter (fun p => p.1 == s)).length ≤ 1)
    (cs : List Int) (c : Int) :
    (((cs ++ [c]).foldl (fun d c' => update_checkpoint d s c') db).checkpoints.filter
      (fun p => p.1 == s)) = [(s, c)] := by
  induction cs generalizing db with
  | nil => simpa using update_checkpoint_once db s c h
  | cons c0 t ih =>
    rw [List.cons_append, List.foldl_cons]
    exact ih (update_checkpoint db s c0) (by rw [update_checkpoint_once db s c0 h]; simp)

/-- C4 witness: `update_checkpoint "x" 100` then `update_checkpoint "x" 200`
on the empty store leaves exactly one row for `"x"`, with cursor 200. -/
theorem claim4_witness :
    ((([100] ++ [200] : List Int).foldl (fun d c' => update_checkpoint d "x" c') emptyDB).checkpoints.filter
      (fun p => p.1 == "x")) = [("x", 200)] :=
  claim4_theorem emptyDB "x" (by simp [emptyDB]) [100] 200

/-- C9 (amended): after every successful per-source ingestion call, the
stored cursor for that source equals the number of records loaded by that
call — a per-call counter, not a monotonically advanced offset. -/
theorem claim9_theorem (db : DBState) (b : Behaviour) (n : Nat) (db' : DBState) :
    (ingestPaprika db b = (.ok n, db') → get_checkpoint db' "coinpaprika" = (n : Int)) ∧
    (ingestGecko db b = (.ok n, db') → get_checkpoint db' "coingecko" = (n : Int)) ∧
    (ingestCsv db b = (.ok n, db') → get_checkpoint db' "csv" = (n : Int)) := by
  refine ⟨?_, ?_, ?_⟩
  · intro h
    rcases hb : b.paprika with m | items
    · simp [ingestPaprika, hb] at h
    · rcases ht : transform_coinpaprika items with e | ⟨cleaned, errs⟩
      · simp [ingestPaprika, hb, ht] at h
      · rcases hl : b.paprikaLoadFail with _ | m
        · simp only [ingestPaprika, hb, ht, hl, Prod.mk.injEq, Except.ok.injEq] at h
          obtain ⟨h1, h2⟩ := h
          rw [← h2, ← h1]
          exact get_update_checkpoint _ _ _
        · simp [ingestPaprika, hb, ht, hl] at h
  · intro h
    rcases hb : b.gecko with m | items
    · simp [ingestGecko, hb] at h
    · rcases hl : b.geckoLoadFail with _ | m
      · simp only [ingestGecko, hb, hl, Prod.mk.injEq, Except.ok.injEq] at h
        obtain ⟨h1, h2⟩ := h
        rw [← h2, ← h1]
        exact get_update_checkpoint _ _ _
      · simp [ingestGecko, hb, hl] at h
  · intro h
    rcases hb : b.csv with m | items
    · simp [ingestCsv, hb] at h
    · rcases hl : b.csvLoadFail with _ | m
      · simp only [ingestCsv, hb, hl, Prod.mk.injEq, Except.ok.injEq] at h
        obtain ⟨h1, h2⟩ := h
        rw [← h2, ← h1]
        exact get_update_checkpoint _ _ _
      · simp [ingestCsv, hb, hl] at h

/-- C9 counterexample: two consecutive successful CoinPaprika ingestion
calls, the first loading 2 records and the second loading 1, leave the
stored cursor at 2 and then at 1 — the cursor decreased across successful
ingestion calls, so it is not monotonically advanced. -/
theorem claim9_counterexample :
    (ingestPaprika emptyDB behTwo).1 = .ok 2 ∧
    get_checkpoint (ingestPaprika emptyDB behTwo).2 "coinpaprika" = 2 ∧
    (ingestPaprika (ingestPaprika emptyDB behTwo).2 behOne).1 = .ok 1 ∧
    get_checkpoint (ingestPaprika (ingestPaprika emptyDB behTwo).2 behOne).2 "coinpaprika" = 1 := by
  refine ⟨?_, ?_, ?_, ?_⟩ <;> with_unfolding_all rfl

/-- C9 witness: the amended statement instantiated at the concrete two-item
ingestion, whose checkpoint cursor is its own loaded count. -/
theorem claim9_witness :
    get_checkpoint (ingestPaprika emptyDB behTwo).2 "coinpaprika" = ((2 : Nat) : Int) :=
  (claim9_theorem emptyDB behTwo 2 (ingestPaprika emptyDB behTwo).2).1
    (by with_unfolding_all rfl)

/-- C5 counterexample: `CoinGeckoClient.get_coins_markets` does not handle a
429 at all — it raises immediately, with no sleep and no second request,
even though a retry would have succeeded; and
`CoinPaprikaClient.get_tickers` retries more than once per call: facing two
consecutive 429s it issues three requests.  Both refute the claim that each
API fetch handles 429 by one fixed-cooldown retry. -/
theorem claim5_counterexample :
    (geckoGetCoinsMarkets [.tooMany, .ok []]).outcome = .error "HTTP 429" ∧
    (geckoGetCoinsMarkets [.tooMany, .ok []]).sleeps = [] ∧
    (geckoGetCoinsMarkets [.tooMany, .ok []]).requests = 1 ∧
    (paprikaGetTickers [.tooMany, .tooMany, .ok []]).requests = 3 ∧
    (paprikaGetTickers [.tooMany, .tooMany, .ok []]).outcome = .ok [] :=
  ⟨rfl, rfl, rfl, rfl, rfl⟩

/-- C5 (amended): `CoinPaprikaClient.get_tickers` sleeps a fixed 60 seconds
and recursively retries on every 429 it receives, with no retry bound — `k`
consecutive 429s produce `k` sleeps and `k+1` requests before the final
response decides the outcome — and it surfaces no rate-limit condition to
the caller as long as some retry finally succeeds, while any other non-2xx
response propagates as a failure; `CoinGeckoClient.get_coins_markets`
performs no 429 handling whatsoever: its outcome is decided by the first
response alone (429 included, which propagates as an HTTP failure), with
one request and no sleep. -/
theorem claim5_theorem (k : Nat) (d : List Item) (c : Nat) (r : HttpResponse)
    (rest : List HttpResponse) :
    (paprikaGetTickers (List.replicate k .tooMany ++ [.ok d])).outcome = .ok d ∧
    (paprikaGetTickers (List.replicate k .tooMany ++ [.ok d])).requests = k + 1 ∧
    (paprikaGetTickers (List.replicate k .tooMany ++ [.ok d])).sleeps = List.replicate k 60 ∧
    (paprikaGetTickers (List.replicate k .tooMany ++ [.errorStatus c])).outcome
      = .error ("HTTP " ++ toString c) ∧
    (geckoGetCoinsMarkets (r :: rest)).requests = 1 ∧
    (geckoGetCoinsMarkets (r :: rest)).sleeps = [] ∧
    (geckoGetCoinsMarkets (.tooMany :: rest)).outcome = .error "HTTP 429" := by
  refine ⟨?_, ?_, ?_, ?_, ?_, ?_, rfl⟩
  · induction k with
    | zero => rfl
    | succ k ih => simpa [List.replicate_succ, paprikaGetTickers] using ih
  · induction k with
    | zero => rfl
    | succ k ih => simpa [List.replicate_succ, paprikaGetTickers] using ih
  · induction k with
    | zero => rfl
    | succ k ih => simpa [List.replicate_succ, paprikaGetTickers] using ih
  · induction k with
    | zero => rfl
    | succ k ih => simpa [List.replicate_succ, paprikaGetTickers] using ih
  · cases r <;> rfl
  · cases r <;> rfl

/-- C6 counterexample: on a row with a valid price and the unparsable
market-cap string "abc", the claim says the optional field becomes `None`
and the record survives; the code instead raises `ValueError` inside the
per-item `try`, so the whole record is skipped and counted as an error —
the output batch is empty. -/
theorem claim6_counterexample :
    transform_csv [csvRowUnparsable] = ([], 1) := by
  with_unfolding_all rfl

/-- C6 (amended): numeric strings have thousands-separator commas stripped
before parsing (price "42,000.50" yields 42000.50), the id is lowercased
and trimmed, and the `_usd`-suffixed field is preferred over the legacy
name when both are present with a non-empty value; an EMPTY numeric string
becomes `None` for the optional fields and `0` for the required price field
(which then fails validation downstream, dropping the record); but a
non-empty UNPARSABLE numeric string does not become `None`/`0` — it raises
`ValueError`, caught per record, so the record is skipped and counted. -/
theorem claim6_theorem :
    transform_csv [csvRowPreferred] =
      ([⟨"bitcoin", "Bitcoin", 42000.5, some 800000000000, none, none, "csv"⟩], 0) ∧
    transform_csv [csvRowEmptyPrice] = ([], 1) ∧
    transform_csv [csvRowEmptyMc] =
      ([⟨"x", "X", 5, none, none, none, "csv"⟩], 0) ∧
    transform_csv [csvRowUnparsable] = ([], 1) := by
  refine ⟨?_, ?_, ?_, ?_⟩ <;> with_unfolding_all rfl

/-- An accepted required string field is non-empty. -/
theorem validStr_ne (v : Val) (s : String) (h : validStr v = some s) : s ≠ "" := by
  unfold validStr at h
  split at h
  case _ s0 =>
    split at h
    · cases h
    case _ hne =>
      cases h
      intro habs
      have : stripChars s0.toList = [] := by
        have := congrArg String.data habs
        simpa [pyStrip] using this
      rw [this] at hne
      simp at hne
  · cases h

/-- An accepted price is strictly positive. -/
theorem validPrice_pos (v : Val) (p : ℚ) (h : validPrice v = some p) : 0 < p := by
  unfold validPrice at h
  split at h
  · split at h
    · cases h; assumption
    · cases h
  · cases h

/-- An accepted optional non-negative field is absent or non-negative. -/
theorem validOptNonneg_nonneg (v : Val) (m : Option ℚ) (h : validOptNonneg v = some m)
    (q : ℚ) (hq : m = some q) : 0 ≤ q := by
  unfold validOptNonneg at h
  split at h
  · cases h; cases hq
  · split at h
    · split at h
      · cases h; cases hq; assumption
      · cases h
    · cases h

/-- Every record pydantic construction accepts satisfies the validation
invariant. -/
theorem mkCryptoData_valid (idv namev pricev mcv volv chgv : Val) (src : String)
    (c : CryptoData) (h : mkCryptoData idv namev pricev mcv volv chgv src = some c) :
    validRecord c := by
  unfold mkCryptoData at h
  simp only [Option.bind_eq_bind, Option.bind_eq_some] at h
  obtain ⟨i, hi, n, hn, p, hp, m, hm, v, hv, ch, hch, heq⟩ := h
  have hc : c = ⟨i, n, p, m, v, ch, src⟩ := by cases heq; rfl
  subst hc
  exact ⟨validPrice_pos _ _ hp, validStr_ne _ _ hi, validStr_ne _ _ hn,
    fun q hq => validOptNonneg_nonneg _ _ hm q hq,
    fun q hq => validOptNonneg_nonneg _ _ hv q hq⟩

/-- A CoinGecko item record comes from pydantic construction. -/
theorem geckoItemRecord_eq (item : Item) (c : CryptoData)
    (h : geckoItemRecord item = some c) : validRecord c := by
  unfold geckoItemRecord at h
  exact mkCryptoData_valid _ _ _ _ _ _ _ _ h

/-- A CSV item record comes from pydantic construction. -/
theorem csvItemRecord_valid (item : Item) (c : CryptoData)
    (h : csvItemRecord item = some c) : validRecord c := by
  unfold csvItemRecord at h
  dsimp only at h
  split at h <;> split at h <;> split at h <;>
    (obtain ⟨p, -, h⟩ := Option.bind_eq_some.mp h
     obtain ⟨m, -, h⟩ := Option.bind_eq_some.mp h
     obtain ⟨v, -, h⟩ := Option.bind_eq_some.mp h
     exact mkCryptoData_valid _ _ _ _ _ _ _ _ h)

/-- A CoinPaprika item record, when it neither raises nor is skipped, comes
from pydantic construction. -/
theorem paprikaItemRecord_valid (item : Item) (c : CryptoData)
    (h : paprikaItemRecord item = .ok (some c)) : validRecord c := by
  unfold paprikaItemRecord at h
  split at h <;> try cases h
  split at h <;> try cases h
  case _ =>
    have h' := Except.ok.inj h
    exact mkCryptoData_valid _ _ _ _ _ _ _ _ h'

/-- An item with well-shaped quotes never raises: its per-item processing
returns normally. -/
theorem paprikaItemRecord_ok (item : Item) (h : paprikaQuotesOk item = true) :
    ∃ o, paprikaItemRecord item = .ok o := by
  unfold paprikaQuotesOk at h
  unfold paprikaItemRecord
  split at h
  next qfs hq =>
    split at h
    next usd hu =>
      exact ⟨_, rfl⟩
    next => cases h
  next => cases h

/-- A raising-free CoinPaprika batch returns normally and accounts for every
input item: each item is either in the output or counted as an error. -/
theorem transform_coinpaprika_total (raw : List Item)
    (h : ∀ it ∈ raw, paprikaQuotesOk it = true) :
    ∃ cs errs, transform_coinpaprika raw = .ok (cs, errs) ∧ cs.length + errs = raw.length := by
  induction raw with
  | nil => exact ⟨[], 0, rfl, rfl⟩
  | cons it rest ih =>
    obtain ⟨o, ho⟩ := paprikaItemRecord_ok it (h it (by simp))
    obtain ⟨cs, errs, hcs, hlen⟩ := ih (fun x hx => h x (by simp [hx]))
    cases o with
    | none =>
      refine ⟨cs, errs + 1, ?_, ?_⟩
      · simp only [transform_coinpaprika, ho, hcs]
      · simp only [List.length_cons]; omega
    | some c =>
      refine ⟨c :: cs, errs, ?_, ?_⟩
      · simp only [transform_coinpaprika, ho, hcs]
      · simp only [List.length_cons]; omega

/-- The CoinGecko batch accounts for every input item. -/
theorem transform_coingecko_count (raw : List Item) :
    (transform_coingecko raw).1.length + (transform_coingecko raw).2 = raw.length := by
  induction raw with
  | nil => rfl
  | cons it rest ih =>
    simp only [transform_coingecko]
    cases hgi : geckoItemRecord it <;> simp only [hgi] <;> simp only [List.length_cons] <;> omega

/-- The CSV batch accounts for every input item. -/
theorem transform_csv_count (raw : List Item) :
    (transform_csv raw).1.length + (transform_csv raw).2 = raw.length := by
  induction raw with
  | nil => rfl
  | cons it rest ih =>
    simp only [transform_csv]
    cases hgi : csvItemRecord it <;> simp only [hgi] <;> simp only [List.length_cons] <;> omega

/-- Every record in a CoinGecko batch output satisfies the invariant. -/
theorem transform_coingecko_valid (raw : List Item) (c : CryptoData)
    (h : c ∈ (transform_coingecko raw).1) : validRecord c := by
  induction raw with
  | nil => cases h
  | cons it rest ih =>
    simp only [transform_coingecko] at h
    cases hgi : geckoItemRecord it <;> simp only [hgi] at h
    · exact ih h
    · rcases List.mem_cons.mp h with h1 | h1
      · exact h1 ▸ geckoItemRecord_eq it _ hgi
      · exact ih h1

/-- Every record in a CSV batch output satisfies the invariant. -/
theorem transform_csv_valid (raw : List Item) (c : CryptoData)
    (h : c ∈ (transform_csv raw).1) : validRecord c := by
  induction raw with
  | nil => cases h
  | cons it rest ih =>
    simp only [transform_csv] at h
    cases hgi : csvItemRecord it <;> simp only [hgi] at h
    · exact ih h
    · rcases List.mem_cons.mp h with h1 | h1
      · exact h1 ▸ csvItemRecord_valid it _ hgi
      · exact ih h1

/-- Every record in a normally-returning CoinPaprika batch output satisfies
the invariant. -/
theorem transform_coinpaprika_valid (raw : List Item) (cs : List CryptoData) (errs : Nat)
    (h : transform_coinpaprika raw = .ok (cs, errs)) (c : CryptoData) (hc : c ∈ cs) :
    validRecord c := by
  induction raw generalizing cs errs with
  | nil =>
    have h' : Except.ok (ε := PyErr) (([] : List CryptoData), (0 : Nat)) = .ok (cs, errs) := h
    cases h'
    cases hc
  | cons it rest ih =>
    simp only [transform_coinpaprika] at h
    cases hpi : paprikaItemRecord it with
    | error e => rw [hpi] at h; simp at h
    | ok o =>
      rw [hpi] at h
      cases hr : transform_coinpaprika rest with
      | error e =>
        rw [hr] at h
        cases o <;> simp at h
      | ok pr =>
        obtain ⟨cs', errs'⟩ := pr
        rw [hr] at h
        cases o with
        | none =>
          have h' : Except.ok (ε := PyErr) (cs', errs' + 1) = .ok (cs, errs) := h
          cases h'
          exact ih _ _ hr hc
        | some c0 =>
          have h' : Except.ok (ε := PyErr) (c0 :: cs', errs') = .ok (cs, errs) := h
          cases h'
          rcases List.mem_cons.mp hc with h1 | h1
          · exact h1 ▸ paprikaItemRecord_valid it c0 hpi
          · exact ih _ _ hr h1

/-- C2 counterexample: on a batch whose first item carries a non-dict
`quotes` value, `transform_coinpaprika` raises an uncaught
`AttributeError` — it does not skip the item and continue, and the later
well-formed item `ckItemA` is lost with the whole batch. -/
theorem claim2_counterexample :
    transform_coinpaprika [badQuotesItem, ckItemA] = .error .attributeError := by
  with_unfolding_all rfl

/-- C2 (amended): `transform_coingecko` and `transform_csv` never raise and
account for every raw item — each item either contributes one output record
or increments the error counter, and a bad item never blocks the rest; an
item missing the required price field is excluded and counted (concrete
conjuncts).  `transform_coinpaprika` behaves the same way only on batches
whose items carry dict-shaped `quotes`/`USD` values; a non-dict value there
raises an uncaught `AttributeError` that aborts the whole batch. -/
theorem claim2_theorem (raw : List Item)
    (h : ∀ it ∈ raw, paprikaQuotesOk it = true) :
    ((transform_coingecko raw).1.length + (transform_coingecko raw).2 = raw.length) ∧
    ((transform_csv raw).1.length + (transform_csv raw).2 = raw.length) ∧
    (∃ cs errs, transform_coinpaprika raw = .ok (cs, errs) ∧ cs.length + errs = raw.length) ∧
    transform_coingecko [[("id", .vstr "x"), ("name", .vstr "X")]] = ([], 1) ∧
    transform_csv [[("id", .vstr "x"), ("name", .vstr "X")]] = ([], 1) ∧
    transform_coinpaprika [[("id", .vstr "x"), ("name", .vstr "X"),
      ("quotes", .vobj [("USD", .vobj [])])]] = .ok ([], 1) := by
  refine ⟨transform_coingecko_count raw, transform_csv_count raw,
    transform_coinpaprika_total raw h, ?_, ?_, ?_⟩ <;> with_unfolding_all rfl

/-- C2 witness: the amended statement instantiated at a concrete two-item
well-shaped CoinPaprika batch. -/
theorem claim2_witness :
    ∃ cs errs, transform_coinpaprika [ckItemA, ckItemB] = .ok (cs, errs) ∧
      cs.length + errs = [ckItemA, ckItemB].length :=
  (claim2_theorem [ckItemA, ckItemB] (by decide)).2.2.1

/-- C3: every record any of the three transformers outputs satisfies the
validation invariant — strictly positive price, non-empty id and name (the
stored field being the trimmed string), optional monetary fields absent or
non-negative — and each ingestion method loads exactly the transformer
output, so a record violating the rules is never among the newly loaded
cleaned rows. -/
theorem claim3_theorem (raw : List Item) (c : CryptoData) (db : DBState) (b : Behaviour) :
    (c ∈ (transform_coingecko raw).1 → validRecord c) ∧
    (c ∈ (transform_csv raw).1 → validRecord c) ∧
    (∀ cs errs, transform_coinpaprika raw = .ok (cs, errs) → c ∈ cs → validRecord c) ∧
    (∀ r db', ingestPaprika db b = (r, db') → c ∈ db'.cleanedRows →
      c ∈ db.cleanedRows ∨ validRecord c) ∧
    (∀ r db', ingestGecko db b = (r, db') → c ∈ db'.cleanedRows →
      c ∈ db.cleanedRows ∨ validRecord c) ∧
    (∀ r db', ingestCsv db b = (r, db') → c ∈ db'.cleanedRows →
      c ∈ db.cleanedRows ∨ validRecord c) := by
  refine ⟨transform_coingecko_valid raw c, transform_csv_valid raw c,
    fun cs errs hok hc => transform_coinpaprika_valid raw cs errs hok c hc, ?_, ?_, ?_⟩
  · intro r db' h hmem
    rcases hb : b.paprika with m | items
    · simp only [ingestPaprika, hb] at h
      cases h
      exact Or.inl hmem
    · rcases ht : transform_coinpaprika items with e | pr
      · simp only [ingestPaprika, hb, ht] at h
        cases h
        exact Or.inl hmem
      · obtain ⟨cleaned, errs⟩ := pr
        rcases hl : b.paprikaLoadFail with _ | m <;>
          simp only [ingestPaprika, hb, ht, hl] at h <;> cases h
        · rcases List.mem_append.mp hmem with h1 | h1
          · exact Or.inl h1
          · exact Or.inr (transform_coinpaprika_valid items cleaned errs ht c h1)
        · exact Or.inl hmem
  · intro r db' h hmem
    rcases hb : b.gecko with m | items
    · simp only [ingestGecko, hb] at h
      cases h
      exact Or.inl hmem
    · rcases hl : b.geckoLoadFail with _ | m <;>
        simp only [ingestGecko, hb, hl] at h <;> cases h
      · rcases List.mem_append.mp hmem with h1 | h1
        · exact Or.inl h1
        · exact Or.inr (transform_coingecko_valid items c h1)
      · exact Or.inl hmem
  · intro r db' h hmem
    rcases hb : b.csv with m | items
    · simp only [ingestCsv, hb] at h
      cases h
      exact Or.inl hmem
    · rcases hl : b.csvLoadFail with _ | m <;>
        simp only [ingestCsv, hb, hl] at h <;> cases h
      · rcases List.mem_append.mp hmem with h1 | h1
        · exact Or.inl h1
        · exact Or.inr (transform_csv_valid items c h1)
      · exact Or.inl hmem

/-- C3 witness: the invariant concluded for the concrete record the
CoinGecko transformer produces from a well-formed item. -/
theorem claim3_witness : validRecord geckoWitnessRecord := by
  have hout : transform_coingecko [geckoWitnessItem] = ([geckoWitnessRecord], 0) := by
    with_unfolding_all rfl
  exact (claim3_theorem [geckoWitnessItem] geckoWitnessRecord emptyDB behTwo).1
    (by rw [hout]; exact List.mem_singleton.mpr rfl)

/-- Characterization of a successful CoinPaprika ingestion. -/
theorem ingestPaprika_ok_char (db : DBState) (b : Behaviour) (n : Nat) (db' : DBState)
    (h : ingestPaprika db b = (.ok n, db')) :
    db'.cleanedRows = db.cleanedRows ++ cleanedOf b "coinpaprika" ∧
    db'.runs = db.runs ∧ failMsgOf b "coinpaprika" = none := by
  rcases hb : b.paprika with m | items
  · simp [ingestPaprika, hb] at h
  · rcases ht : transform_coinpaprika items with e | ⟨cleaned, errs⟩
    · simp [ingestPaprika, hb, ht] at h
    · rcases hl : b.paprikaLoadFail with _ | m
      · simp only [ingestPaprika, hb, ht, hl, Prod.mk.injEq, Except.ok.injEq] at h
        obtain ⟨h1, h2⟩ := h
        rw [← h2]
        exact ⟨by simp [update_checkpoint, cleanedOf, hb, ht], rfl, by simp [failMsgOf, hb, ht, hl]⟩
      · simp [ingestPaprika, hb, ht, hl] at h

/-- Characterization of a failed CoinPaprika ingestion. -/
theorem ingestPaprika_err_char (db : DBState) (b : Behaviour) (m : String) (db' : DBState)
    (h : ingestPaprika db b = (.error m, db')) :
    db'.cleanedRows = db.cleanedRows ∧ db'.runs = db.runs ∧
    failMsgOf b "coinpaprika" = some m := by
  rcases hb : b.paprika with m0 | items
  · simp only [ingestPaprika, hb, Prod.mk.injEq, Except.error.injEq] at h
    obtain ⟨h1, h2⟩ := h
    rw [← h2]
    exact ⟨rfl, rfl, by simp [failMsgOf, hb, h1]⟩
  · rcases ht : transform_coinpaprika items with e | ⟨cleaned, errs⟩
    · simp only [ingestPaprika, hb, ht, Prod.mk.injEq, Except.error.injEq] at h
      obtain ⟨h1, h2⟩ := h
      rw [← h2]
      exact ⟨rfl, rfl, by simp [failMsgOf, hb, ht, h1]⟩
    · rcases hl : b.paprikaLoadFail with _ | m0
      · simp [ingestPaprika, hb, ht, hl] at h
      · simp only [ingestPaprika, hb, ht, hl, Prod.mk.injEq, Except.error.injEq] at h
        obtain ⟨h1, h2⟩ := h
        rw [← h2]
        exact ⟨rfl, rfl, by simp [failMsgOf, hb, ht, hl, h1]⟩

/-- Characterization of a successful CoinGecko ingestion. -/
theorem ingestGecko_ok_char (db : DBState) (b : Behaviour) (n : Nat) (db' : DBState)
    (h : ingestGecko db b = (.ok n, db')) :
    db'.cleanedRows = db.cleanedRows ++ cleanedOf b "coingecko" ∧
    db'.runs = db.runs ∧ failMsgOf b "coingecko" = none := by
  rcases hb : b.gecko with m | items
  · simp [ingestGecko, hb] at h
  · rcases hl : b.geckoLoadFail with _ | m
    · simp only [ingestGecko, hb, hl, Prod.mk.injEq, Except.ok.injEq] at h
      obtain ⟨h1, h2⟩ := h
      rw [← h2]
      exact ⟨by simp [update_checkpoint, cleanedOf, hb], rfl, by simp [failMsgOf, hb, hl]⟩
    · simp [ingestGecko, hb, hl] at h

/-- Characterization of a failed CoinGecko ingestion. -/
theorem ingestGecko_err_char (db : DBState) (b : Behaviour) (m : String) (db' : DBState)
    (h : ingestGecko db b = (.error m, db')) :
    db'.cleanedRows = db.cleanedRows ∧ db'.runs = db.runs ∧
    failMsgOf b "coingecko" = some m := by
  rcases hb : b.gecko with m0 | items
  · simp only [ingestGecko, hb, Prod.mk.injEq, Except.error.injEq] at h
    obtain ⟨h1, h2⟩ := h
    rw [← h2]
    exact ⟨rfl, rfl, by simp [failMsgOf, hb, h1]⟩
  · rcases hl : b.geckoLoadFail with _ | m0
    · simp [ingestGecko, hb, hl] at h
    · simp only [ingestGecko, hb, hl, Prod.mk.injEq, Except.error.injEq] at h
      obtain ⟨h1, h2⟩ := h
      rw [← h2]
      exact ⟨rfl, rfl, by simp [failMsgOf, hb, hl, h1]⟩

/-- Characterization of a successful CSV ingestion. -/
theorem ingestCsv_ok_char (db : DBState) (b : Behaviour) (n : Nat) (db' : DBState)
    (h : ingestCsv db b = (.ok n, db')) :
    db'.cleanedRows = db.cleanedRows ++ cleanedOf b "csv" ∧
    db'.runs = db.runs ∧ failMsgOf b "csv" = none := by
  rcases hb : b.csv with m | items
  · simp [ingestCsv, hb] at h
  · rcases hl : b.csvLoadFail with _ | m
    · simp only [ingestCsv, hb, hl, Prod.mk.injEq, Except.ok.injEq] at h
      obtain ⟨h1, h2⟩ := h
      rw [← h2]
      exact ⟨by simp [update_checkpoint, cleanedOf, hb], rfl, by simp [failMsgOf, hb, hl]⟩
    · simp [ingestCsv, hb, hl] at h

/-- Characterization of a failed CSV ingestion. -/
theorem ingestCsv_err_char (db : DBState) (b : Behaviour) (m : String) (db' : DBState)
    (h : ingestCsv db b = (.error m, db')) :
    db'.cleanedRows = db.cleanedRows ∧ db'.runs = db.runs ∧
    failMsgOf b "csv" = some m := by
  rcases hb : b.csv with m0 | items
  · simp only [ingestCsv, hb, Prod.mk.injEq, Except.error.injEq] at h
    obtain ⟨h1, h2⟩ := h
    rw [← h2]
    exact ⟨rfl, rfl, by simp [failMsgOf, hb, h1]⟩
  · rcases hl : b.csvLoadFail with _ | m0
    · simp [ingestCsv, hb, hl] at h
    · simp only [ingestCsv, hb, hl, Prod.mk.injEq, Except.error.injEq] at h
      obtain ⟨h1, h2⟩ := h
      rw [← h2]
      exact ⟨rfl, rfl, by simp [failMsgOf, hb, hl, h1]⟩

/-- `runSources` is the guarded fold over the three-source plan. -/
theorem runSources_eq (db : DBState) (b : Behaviour) (sources : List String) :
    runSources db b sources = foldSteps sources (sourcePlan b) ⟨none, 0, [], db⟩ := rfl

/-- Once a source has raised, the remaining guarded steps do nothing. -/
theorem foldSteps_err (sources : List String) :
    ∀ plan (s : StepResult) (m : String), s.err = some m → foldSteps sources plan s = s := by
  intro plan
  induction plan with
  | nil => intro s m _; rfl
  | cons p rest ih =>
    intro s m hm
    show foldSteps sources rest (if sources.contains p.1 then step s p.1 p.2 else s) = s
    have hstep : step s p.1 p.2 = s := by
      unfold step
      rw [hm]
    by_cases hg : sources.contains p.1
    · rw [if_pos hg, hstep]
      exact ih s m hm
    · rw [if_neg hg]
      exact ih s m hm

/-- Master characterization of the guarded fold, for a plan whose entries
satisfy their contract and a state that has not yet raised: the attempted
names extend the state's by a prefix `t` of the recognized plan names in
plan order; run rows are untouched; if no step raised, `t` is the whole
recognized list, every attempted source succeeded and the cleaned rows grew
by exactly the attempted sources' outputs; if some step raised, `t` ends at
the raising source, the cleaned rows grew by exactly the outputs of the
sources attempted before it (all of which succeeded), and the raised
message is that source's failure message. -/
theorem foldSteps_main (b : Behaviour) (sources : List String) :
    ∀ (plan : List (String × (DBState → Except String Nat × DBState))) (s : StepResult),
    (∀ p ∈ plan, planSpec b p) → s.err = none →
    ∃ t : List String,
      (foldSteps sources plan s).attempted = s.attempted ++ t ∧
      t <+: (plan.map Prod.fst).filter (fun x => sources.contains x) ∧
      (foldSteps sources plan s).db.runs = s.db.runs ∧
      ((foldSteps sources plan s).err = none →
        (foldSteps sources plan s).db.cleanedRows
          = s.db.cleanedRows ++ (t.map (cleanedOf b)).flatten ∧
        t = (plan.map Prod.fst).filter (fun x => sources.contains x) ∧
        (∀ x ∈ t, sourceOk b x = true)) ∧
      (∀ m, (foldSteps sources plan s).err = some m →
        ∃ pre lastS, t = pre ++ [lastS] ∧
          (foldSteps sources plan s).db.cleanedRows
            = s.db.cleanedRows ++ (pre.map (cleanedOf b)).flatten ∧
          failMsgOf b lastS = some m ∧
          (∀ x ∈ pre, sourceOk b x = true)) := by
  intro plan
  induction plan with
  | nil =>
    intro s _ hnone
    refine ⟨[], by simp [foldSteps], by simp, rfl, ?_, ?_⟩
    · intro _
      exact ⟨by simp [foldSteps], by simp, by simp⟩
    · intro m hm
      rw [show foldSteps sources [] s = s from rfl] at hm
      rw [hnone] at hm
      cases hm
  | cons p rest ih =>
    intro s hplan hnone
    have hrest : ∀ q ∈ rest, planSpec b q := fun q hq => hplan q (by simp [hq])
    have hfold : foldSteps sources (p :: rest) s
        = foldSteps sources rest (if sources.contains p.1 then step s p.1 p.2 else s) := rfl
    by_cases hg : sources.contains p.1
    · rw [if_pos hg] at hfold
      rcases hf : p.2 s.db with ⟨r, d'⟩
      cases r with
      | ok n =>
        have hstep : step s p.1 p.2 = ⟨none, s.total + n, s.attempted ++ [p.1], d'⟩ := by
          unfold step
          rw [hnone, hf]
        obtain ⟨hcl, hruns, hmsg⟩ := (hplan p (by simp)).1 s.db n d' hf
        obtain ⟨t', ha, hpre, hr, hcase1, hcase2⟩ :=
          ih ⟨none, s.total + n, s.attempted ++ [p.1], d'⟩ hrest rfl
        rw [hstep] at hfold
        refine ⟨p.1 :: t', ?_, ?_, ?_, ?_, ?_⟩
        · rw [hfold, ha]
          simp
        · rw [List.map_cons, List.filter_cons_of_pos hg]
          exact List.cons_prefix_cons.mpr ⟨rfl, hpre⟩
        · rw [hfold, hr]
          exact hruns
        · intro hnone2
          rw [hfold] at hnone2 ⊢
          obtain ⟨hc1, hc2, hc3⟩ := hcase1 hnone2
          refine ⟨?_, ?_, ?_⟩
          · rw [hc1]
            simp [hcl]
          · rw [List.map_cons, List.filter_cons_of_pos hg, hc2]
          · intro x hx
            rcases List.mem_cons.mp hx with h1 | h1
            · rw [h1]
              simp [sourceOk, hmsg]
            · exact hc3 x h1
        · intro m hm
          rw [hfold] at hm ⊢
          obtain ⟨pre, lastS, ht', hcln, hfl, hpr⟩ := hcase2 m hm
          refine ⟨p.1 :: pre, lastS, by rw [ht']; rfl, ?_, hfl, ?_⟩
          · rw [hcln]
            simp [hcl]
          · intro x hx
            rcases List.mem_cons.mp hx with h1 | h1
            · rw [h1]
              simp [sourceOk, hmsg]
            · exact hpr x h1
      | error m0 =>
        have hstep : step s p.1 p.2 = ⟨some m0, s.total, s.attempted ++ [p.1], d'⟩ := by
          unfold step
          rw [hnone, hf]
        obtain ⟨hcl, hruns, hmsg⟩ := (hplan p (by simp)).2 s.db m0 d' hf
        rw [hstep] at hfold
        rw [foldSteps_err sources rest _ m0 rfl] at hfold
        refine ⟨[p.1], by rw [hfold], ?_, by rw [hfold]; exact hruns, ?_, ?_⟩
        · rw [List.map_cons, List.filter_cons_of_pos hg]
          exact List.cons_prefix_cons.mpr ⟨rfl, List.nil_prefix⟩
        · intro habs
          rw [hfold] at habs
          cases habs
        · intro m hm
          rw [hfold] at hm
          cases hm
          refine ⟨[], p.1, rfl, by rw [hfold]; simpa using hcl, hmsg, by simp⟩
    · rw [if_neg hg] at hfold
      obtain ⟨t', ha, hpre, hr, hcase1, hcase2⟩ := ih s hrest hnone
      rw [hfold]
      refine ⟨t', ha, ?_, hr, ?_, hcase2⟩
      · rw [List.map_cons, List.filter_cons_of_neg hg]
        exact hpre
      · intro hnone2
        obtain ⟨hc1, hc2, hc3⟩ := hcase1 hnone2
        exact ⟨hc1, by rw [List.map_cons, List.filter_cons_of_neg hg, hc2], hc3⟩

/-- Every entry of the three-source plan satisfies its contract. -/
theorem sourcePlan_spec (b : Behaviour) : ∀ p ∈ sourcePlan b, planSpec b p := by
  intro p hp
  simp only [sourcePlan, List.mem_cons, List.not_mem_nil, or_false] at hp
  rcases hp with h | h | h <;> subst h
  · exact ⟨fun d n d' h => ingestPaprika_ok_char d b n d' h,
      fun d m d' h => ingestPaprika_err_char d b m d' h⟩
  · exact ⟨fun d n d' h => ingestGecko_ok_char d b n d' h,
      fun d m d' h => ingestGecko_err_char d b m d' h⟩
  · exact ⟨fun d n d' h => ingestCsv_ok_char d b n d' h,
      fun d m d' h => ingestCsv_err_char d b m d' h⟩

/-- The plan's names are the fixed source order. -/
theorem sourcePlan_names (b : Behaviour) : (sourcePlan b).map Prod.fst = fixedOrder := rfl

/-- Finalizing the freshly inserted run row updates it alone. -/
theorem endRun_append_runs (l : List RunRow) (row : RunRow) (total : Nat) (succ : Bool)
    (msg : Option String) (hwf : ∀ r ∈ l, r.rid ≠ row.rid) :
    (l ++ [row]).map (endRunUpd row.rid total succ msg)
      = l ++ [⟨row.rid, row.source, total, succ, msg, true⟩] := by
  rw [List.map_append]
  congr 1
  · conv_rhs => rw [← List.map_id l]
    exact List.map_congr_left (fun r hr => by simp [endRunUpd, hwf r hr])
  · simp [endRunUpd]

/-- Full characterization of one `run` invocation: the fresh RunRecord is
the only new run row and is finalized in both outcomes; the attempted
sources are a prefix of the recognized requested names in fixed order; on
success they are exactly that list and the cleaned rows grow by their
outputs; on failure the attempt list ends at the raising source, cleaned
rows grow by the outputs of the sources attempted before it, and the
recorded message is the captured one.  The run succeeds exactly when every
recognized requested source's ingestion succeeds. -/
theorem runPipelineT_char (db0 : DBState) (b : Behaviour) (sources : List String)
    (hwf : ∀ r ∈ db0.runs, r.rid < db0.runs.length) :
    ∃ ok att db' total,
      runPipelineT db0 b sources = (ok, att, db') ∧
      att <+: fixedOrder.filter (fun x => sources.contains x) ∧
      (ok = true ↔ ∀ x ∈ fixedOrder.filter (fun x => sources.contains x),
        sourceOk b x = true) ∧
      (ok = true →
        db'.runs = db0.runs ++
          [⟨db0.runs.length, String.intercalate "," sources, total, true, none, true⟩] ∧
        att = fixedOrder.filter (fun x => sources.contains x) ∧
        db'.cleanedRows = db0.cleanedRows ++ (att.map (cleanedOf b)).flatten) ∧
      (ok = false →
        ∃ m pre lastS,
          db'.runs = db0.runs ++
            [⟨db0.runs.length, String.intercalate "," sources, total, false, some m, true⟩] ∧
          att = pre ++ [lastS] ∧
          failMsgOf b lastS = some m ∧
          (∀ x ∈ pre, sourceOk b x = true) ∧
          db'.cleanedRows = db0.cleanedRows ++ (pre.map (cleanedOf b)).flatten) := by
  obtain ⟨t, ha, hpre, hruns, hcase1, hcase2⟩ :=
    foldSteps_main b sources (sourcePlan b)
      ⟨none, 0, [], startRun db0 (String.intercalate "," sources)⟩ (sourcePlan_spec b) rfl
  rw [sourcePlan_names] at hpre hcase1
  have ha' : (foldSteps sources (sourcePlan b)
      ⟨none, 0, [], startRun db0 (String.intercalate "," sources)⟩).attempted = t := by
    simpa using ha
  have hfresh : ∀ r ∈ db0.runs,
      r.rid ≠ (⟨db0.runs.length, String.intercalate "," sources, 0, false, none, false⟩ : RunRow).rid :=
    fun r hr => Nat.ne_of_lt (hwf r hr)
  have hruns2 : (foldSteps sources (sourcePlan b)
      ⟨none, 0, [], startRun db0 (String.intercalate "," sources)⟩).db.runs
      = db0.runs ++ [⟨db0.runs.length, String.intercalate "," sources, 0, false, none, false⟩] :=
    hruns
  rcases herr : (foldSteps sources (sourcePlan b)
      ⟨none, 0, [], startRun db0 (String.intercalate "," sources)⟩).err with _ | m
  · have hT : runPipelineT db0 b sources = (true, t,
        endRun (foldSteps sources (sourcePlan b)
            ⟨none, 0, [], startRun db0 (String.intercalate "," sources)⟩).db
          db0.runs.length
          (foldSteps sources (sourcePlan b)
            ⟨none, 0, [], startRun db0 (String.intercalate "," sources)⟩).total true none) := by
      simp only [runPipelineT, runSources_eq]
      rw [herr, ha']
    obtain ⟨hc1, hc2, hc3⟩ := hcase1 herr
    refine ⟨true, t, _, (foldSteps sources (sourcePlan b)
        ⟨none, 0, [], startRun db0 (String.intercalate "," sources)⟩).total,
      hT, hpre, ?_, ?_, ?_⟩
    · exact ⟨fun _ x hx => hc3 x (by rw [hc2]; exact hx), fun _ => rfl⟩
    · intro _
      refine ⟨?_, hc2, ?_⟩
      · show ((foldSteps sources (sourcePlan b) _).db.runs.map _) = _
        rw [hruns2]
        exact endRun_append_runs _ _ _ _ _ hfresh
      · show (foldSteps sources (sourcePlan b) _).db.cleanedRows = _
        rw [hc1]
        rfl
    · intro habs
      cases habs
  · have hT : runPipelineT db0 b sources = (false, t,
        endRun (foldSteps sources (sourcePlan b)
            ⟨none, 0, [], startRun db0 (String.intercalate "," sources)⟩).db
          db0.runs.length
          (foldSteps sources (sourcePlan b)
            ⟨none, 0, [], startRun db0 (String.intercalate "," sources)⟩).total false (some m)) := by
      simp only [runPipelineT, runSources_eq]
      rw [herr, ha']
    obtain ⟨pre, lastS, ht, hcln, hfl, hprok⟩ := hcase2 m herr
    refine ⟨false, t, _, (foldSteps sources (sourcePlan b)
        ⟨none, 0, [], startRun db0 (String.intercalate "," sources)⟩).total,
      hT, hpre, ?_, ?_, ?_⟩
    · constructor
      · intro habs
        cases habs
      · intro hall
        exfalso
        have hlast_mem : lastS ∈ t := by
          rw [ht]
          simp
        have hok : sourceOk b lastS = true := hall lastS (hpre.subset hlast_mem)
        rw [sourceOk, hfl] at hok
        cases hok
    · intro habs
      cases habs
    · intro _
      refine ⟨m, pre, lastS, ?_, ht, hfl, hprok, ?_⟩
      · show ((foldSteps sources (sourcePlan b) _).db.runs.map _) = _
        rw [hruns2]
        exact endRun_append_runs _ _ _ _ _ hfresh
      · show (foldSteps sources (sourcePlan b) _).db.cleanedRows = _
        rw [hcln]
        rfl

/-- C1 (amended): if some source's ingestion raises during `run`, the run
aborts at that source — the attempted sources form a prefix of the
recognized requested names in the FIXED execution order (coinpaprika,
coingecko, csv), ending at the raising source, so no source later in that
fixed order is attempted; the cleaned records committed by the sources
attempted before the failing one (all of which succeeded) remain persisted
— the final cleaned table is exactly the initial one plus their outputs;
and exactly one RunRecord for the invocation is finalized, with
`success = false` and `error_message` equal to the captured error's
message. -/
theorem claim1_theorem (db0 : DBState) (b : Behaviour) (sources : List String)
    (att : List String) (db' : DBState)
    (hwf : ∀ r ∈ db0.runs, r.rid < db0.runs.length)
    (h : runPipelineT db0 b sources = (false, att, db')) :
    att <+: fixedOrder.filter (fun x => sources.contains x) ∧
    ∃ m pre lastS total,
      att = pre ++ [lastS] ∧
      failMsgOf b lastS = some m ∧
      (∀ x ∈ pre, sourceOk b x = true) ∧
      db'.cleanedRows = db0.cleanedRows ++ (pre.map (cleanedOf b)).flatten ∧
      db'.runs = db0.runs ++
        [⟨db0.runs.length, String.intercalate "," sources, total, false, some m, true⟩] := by
  obtain ⟨ok, att', db'', total, hT, hp, hiff, hok, hfail⟩ := runPipelineT_char db0 b sources hwf
  cases hT.symm.trans h
  obtain ⟨m, pre, lastS, hr, hatt, hfl, hprok, hcln⟩ := hfail rfl
  exact ⟨hp, m, pre, lastS, total, hatt, hfl, hprok, hcln, hr⟩

/-- C1 counterexample: with the source list ["coingecko", "coinpaprika"]
and a CoinGecko extractor failure, the run fails, yet "coinpaprika" — which
occurs in the given list strictly AFTER the failing source "coingecko" —
was attempted (first, because `run` processes sources in its own fixed
order, not list order).  This refutes the claim that no source later in
the list is attempted when an earlier-listed source's ingestion raises. -/
theorem claim1_counterexample :
    (runPipelineT emptyDB cexB ["coingecko", "coinpaprika"]).1 = false ∧
    failMsgOf cexB "coingecko" = some "boom" ∧
    (runPipelineT emptyDB cexB ["coingecko", "coinpaprika"]).2.1
      = ["coinpaprika", "coingecko"] ∧
    "coinpaprika" ∈ (runPipelineT emptyDB cexB ["coingecko", "coinpaprika"]).2.1 := by
  refine ⟨?_, ?_, ?_, ?_⟩
  · with_unfolding_all rfl
  · with_unfolding_all rfl
  · with_unfolding_all rfl
  · rw [show (runPipelineT emptyDB cexB ["coingecko", "coinpaprika"]).2.1
        = ["coinpaprika", "coingecko"] by with_unfolding_all rfl]
    simp

/-- C1 witness: the amended statement instantiated at the counterexample
run. -/
theorem claim1_witness :
    (runPipelineT emptyDB cexB ["coingecko", "coinpaprika"]).2.1 <+:
      fixedOrder.filter (fun x => (["coingecko", "coinpaprika"] : List String).contains x) ∧
    ∃ m pre lastS total,
      (runPipelineT emptyDB cexB ["coingecko", "coinpaprika"]).2.1 = pre ++ [lastS] ∧
      failMsgOf cexB lastS = some m ∧
      (∀ x ∈ pre, sourceOk cexB x = true) ∧
      (runPipelineT emptyDB cexB ["coingecko", "coinpaprika"]).2.2.cleanedRows
        = emptyDB.cleanedRows ++ (pre.map (cleanedOf cexB)).flatten ∧
      (runPipelineT emptyDB cexB ["coingecko", "coinpaprika"]).2.2.runs
        = emptyDB.runs ++ [⟨emptyDB.runs.length,
            String.intercalate "," ["coingecko", "coinpaprika"], total, false, some m, true⟩] :=
  claim1_theorem emptyDB cexB ["coingecko", "coinpaprika"]
    (runPipelineT emptyDB cexB ["coingecko", "coinpaprika"]).2.1
    (runPipelineT emptyDB cexB ["coingecko", "coinpaprika"]).2.2
    (by simp [emptyDB])
    (by with_unfolding_all rfl)

/-- C7: `run` never raises past its own boundary — for every behaviour of
the extractors and of the per-source persistence commits it returns a
boolean, equal to true exactly when every recognized requested source's
ingestion completed; and in both outcomes the RunRecord created at start is
the single new run row and is finalized: `ended_at` set, with
`records_processed`, the `success` flag (equal to the returned boolean) and
the error message filled in (`none` exactly on success). -/
theorem claim7_theorem (db0 : DBState) (b : Behaviour) (sources : List String)
    (hwf : ∀ r ∈ db0.runs, r.rid < db0.runs.length) :
    ∃ ok att db' total msg,
      runPipelineT db0 b sources = (ok, att, db') ∧
      runPipeline db0 b sources = (ok, db') ∧
      db'.runs = db0.runs ++
        [⟨db0.runs.length, String.intercalate "," sources, total, ok, msg, true⟩] ∧
      (ok = true ↔ msg = none) ∧
      (ok = true ↔ ∀ x ∈ fixedOrder.filter (fun x => sources.contains x),
        sourceOk b x = true) := by
  obtain ⟨ok, att, db', total, hT, hp, hiff, hok, hfail⟩ := runPipelineT_char db0 b sources hwf
  cases ok with
  | true =>
    obtain ⟨hr, _, _⟩ := hok rfl
    exact ⟨true, att, db', total, none, hT, by rw [runPipeline, hT], hr,
      by simp, hiff⟩
  | false =>
    obtain ⟨m, pre, lastS, hr, _, _, _, _⟩ := hfail rfl
    exact ⟨false, att, db', total, some m, hT, by rw [runPipeline, hT], hr,
      by simp, hiff⟩

/-- C7 witness: the statement instantiated at a concrete successful run. -/
theorem claim7_witness :
    ∃ ok att db' total msg,
      runPipelineT emptyDB behTwo ["coinpaprika"] = (ok, att, db') ∧
      runPipeline emptyDB behTwo ["coinpaprika"] = (ok, db') ∧
      db'.runs = emptyDB.runs ++
        [⟨emptyDB.runs.length, String.intercalate "," ["coinpaprika"], total, ok, msg, true⟩] ∧
      (ok = true ↔ msg = none) ∧
      (ok = true ↔ ∀ x ∈ fixedOrder.filter
        (fun x => (["coinpaprika"] : List String).contains x), sourceOk behTwo x = true) :=
  claim7_theorem emptyDB behTwo ["coinpaprika"] (by simp [emptyDB])

/-- C10: `run` attempts only the recognized source names, in the fixed
order coinpaprika, coingecko, csv, regardless of their order in the given
list (the attempted list is always a prefix of the recognized requested
names in fixed order), silently skipping unrecognized names; a run over a
list with no recognized name performs no ingestion — raw rows, cleaned
rows and checkpoints are untouched — and still finishes as a successful
run with `records_processed = 0`, returning true. -/
theorem claim10_theorem (db0 : DBState) (b : Behaviour) (sources : List String)
    (hwf : ∀ r ∈ db0.runs, r.rid < db0.runs.length) :
    (runPipelineT db0 b sources).2.1 <+:
      fixedOrder.filter (fun x => sources.contains x) ∧
    (fixedOrder.filter (fun x => sources.contains x) = [] →
      ∃ db', runPipelineT db0 b sources = (true, [], db') ∧
        db'.cleanedRows = db0.cleanedRows ∧ db'.rawRows = db0.rawRows ∧
        db'.checkpoints = db0.checkpoints ∧
        db'.runs = db0.runs ++
          [⟨db0.runs.length, String.intercalate "," sources, 0, true, none, true⟩]) := by
  constructor
  · obtain ⟨ok, att, db', total, hT, hp, _, _, _⟩ := runPipelineT_char db0 b sources hwf
    rw [hT]
    exact hp
  · intro hfil
    have hx : ∀ x ∈ fixedOrder, sources.contains x = false := by
      intro x hxf
      by_contra hc
      have hmem : x ∈ fixedOrder.filter (fun x => sources.contains x) :=
        List.mem_filter.mpr ⟨hxf, by simpa using hc⟩
      rw [hfil] at hmem
      cases hmem
    have h1 := hx "coinpaprika" (by simp [fixedOrder])
    have h2 := hx "coingecko" (by simp [fixedOrder])
    have h3 := hx "csv" (by simp [fixedOrder])
    have hrs : runSources (startRun db0 (String.intercalate "," sources)) b sources
        = ⟨none, 0, [], startRun db0 (String.intercalate "," sources)⟩ := by
      show List.foldl _ _ _ = _
      simp only [sourcePlan, List.foldl_cons, List.foldl_nil]
      rw [if_neg (fun hc => Bool.false_ne_true (h1 ▸ hc)),
        if_neg (fun hc => Bool.false_ne_true (h2 ▸ hc)),
        if_neg (fun hc => Bool.false_ne_true (h3 ▸ hc))]
    have hT : runPipelineT db0 b sources
        = (true, [], endRun (startRun db0 (String.intercalate "," sources))
            db0.runs.length 0 true none) := by
      simp only [runPipelineT]
      rw [hrs]
    refine ⟨_, hT, rfl, rfl, rfl, ?_⟩
    show ((db0.runs ++
        [(⟨db0.runs.length, String.intercalate "," sources, 0, false, none, false⟩ : RunRow)]).map
      (endRunUpd db0.runs.length 0 true none)) = _
    exact endRun_append_runs db0.runs
      ⟨db0.runs.length, String.intercalate "," sources, 0, false, none, false⟩ 0 true none
      (fun r hr => Nat.ne_of_lt (hwf r hr))

/-- C10 witness: a run over a list with no recognized source name returns
true, ingests nothing and finalizes a successful empty RunRecord. -/
theorem claim10_witness :
    ∃ db', runPipelineT emptyDB behTwo ["bogus"] = (true, [], db') ∧
      db'.cleanedRows = emptyDB.cleanedRows ∧ db'.rawRows = emptyDB.rawRows ∧
      db'.checkpoints = emptyDB.checkpoints ∧
      db'.runs = emptyDB.runs ++
        [⟨emptyDB.runs.length, String.intercalate "," ["bogus"], 0, true, none, true⟩] :=
  (claim10_theorem emptyDB behTwo ["bogus"] (by simp [emptyDB])).2 (by decide)
